import Mathlib

/-
Verification of the `endpoint-sec` crate's `EventExec` wrapper
(`src/endpoint-sec/src/event/event_exec.rs`).

The shallow embedding models the native `es_event_exec_t` record as a Lean
structure whose counted array fields (arguments, environment, descriptors)
are lists, with the native count functions returning the list lengths and
the native element-at-index functions modelled by `List.get?` (so that an
out-of-bounds native call shows up as `none`, the marker of undefined
behaviour at the native boundary).  Cursor and count arithmetic follows the
Rust `u32` operations (`saturating_add`, `saturating_sub`, `min` against
`u32::MAX`) written out over `Nat`.
-/

namespace EndpointSec

/-- Largest value of a Rust `u32`. -/
def U32_MAX : Nat := 2 ^ 32 - 1

/-- Rust `u32::saturating_add` over `Nat`. -/
def satAdd32 (a b : Nat) : Nat := min (a + b) U32_MAX

/-- Native file record `es_file_t` (content abstracted to its path). -/
structure es_file_t where
  path : String
  deriving DecidableEq

/-- Pipe member of the anonymous union inside `es_fd_t`: holds `pipe_id`. -/
structure es_fd_pipe_t where
  pipe_id : Nat
  deriving DecidableEq

/-- Native file-descriptor record `es_fd_t`: descriptor number (`i32`),
libproc descriptor type (`u32`), and the type-tagged union whose pipe
member is meaningful only for the pipe type. -/
structure es_fd_t where
  fd : Int
  fdtype : Nat
  anon_pipe : es_fd_pipe_t
  deriving DecidableEq

/-- Value of the libproc constant `PROX_FDTYPE_PIPE`. -/
def PROX_FDTYPE_PIPE : Nat := 6

/-- Modelled from the spec: the accessor `es_fd_t::pipe` lives in the
`endpoint-sec-sys` crate, which is not under `src/`.  Per the spec (4.4),
`pipe_id` "reads a type-tagged union field; returns a value only when
`fdtype()` equals the pipe type code, otherwise returns not present". -/
def es_fd_t.pipe (x : es_fd_t) : Option es_fd_pipe_t :=
  if x.fdtype = PROX_FDTYPE_PIPE then some x.anon_pipe else none

/-- Native process record (opaque to this module, abstracted to a token). -/
structure es_process_t where
  token : Nat
  deriving DecidableEq

/-- Crate wrapper `Process`: pairs the native process with the message
version (`Process::new(raw, version)`). -/
structure Process where
  raw : es_process_t
  version : Nat
  deriving DecidableEq

/-- Constructor `Process::new`. -/
def Process.new (r : es_process_t) (v : Nat) : Process := ⟨r, v⟩

/-- Crate wrapper `File` over a native `es_file_t` reference. -/
structure File where
  raw : es_file_t
  deriving DecidableEq

/-- Constructor `File::new`. -/
def File.new (f : es_file_t) : File := ⟨f⟩

/-- Native event record `es_event_exec_t`.  The version-dependent scalar
fields (`script`, `cwd`, `last_fd`, `dyld_exec_path`, `image_cputype`,
`image_cpusubtype`) model the version-dependent trailing region; `script`
is a nullable pointer, hence an `Option`.  The counted arrays accessed
through `es_exec_arg` / `es_exec_env` / `es_exec_fd` are modelled as
lists. -/
structure es_event_exec_t where
  target : es_process_t
  script : Option es_file_t
  cwd : es_file_t
  last_fd : Int
  dyld_exec_path : String
  image_cputype : Int
  image_cpusubtype : Int
  args : List String
  envs : List String
  fds : List es_fd_t
  deriving DecidableEq

/-- Native count function `es_exec_arg_count`. -/
def es_exec_arg_count (r : es_event_exec_t) : Nat := r.args.length

/-- Native count function `es_exec_env_count`. -/
def es_exec_env_count (r : es_event_exec_t) : Nat := r.envs.length

/-- Native count function `es_exec_fd_count`. -/
def es_exec_fd_count (r : es_event_exec_t) : Nat := r.fds.length

/-- Crate wrapper `EventExec`: the native record plus the message version. -/
structure EventExec where
  raw : es_event_exec_t
  version : Nat
  deriving DecidableEq

/-- Crate wrapper `Fd` over a native `es_fd_t` reference. -/
structure Fd where
  raw : es_fd_t
  deriving DecidableEq

/-- Accessor `Fd::fd`: descriptor number, a direct field read. -/
def Fd.fd (x : Fd) : Int := x.raw.fd

/-- Accessor `Fd::fdtype`: descriptor type, a direct field read. -/
def Fd.fdtype (x : Fd) : Nat := x.raw.fdtype

/-- Accessor `Fd::pipe_id`: `self.0.pipe().map(|x| x.pipe_id)`. -/
def Fd.pipe_id (x : Fd) : Option Nat :=
  Option.map (fun p => p.pipe_id) x.raw.pipe

/-- Accessor `EventExec::target`: `Process::new(self.raw.target(), self.version)`. -/
def EventExec.target (e : EventExec) : Process := Process.new e.raw.target e.version

/-- Accessor `EventExec::dyld_exec_path`: present on version 7 and later. -/
def EventExec.dyld_exec_path (e : EventExec) : Option String :=
  if 7 ≤ e.version then some e.raw.dyld_exec_path else none

/-- Accessor `EventExec::script`: on version 2 and later reads the nullable
`script` pointer (`script_ptr.as_ref()?`), so the result is present only
when that pointer is non-null; below version 2 it is `None`. -/
def EventExec.script (e : EventExec) : Option File :=
  if 2 ≤ e.version then Option.map File.new e.raw.script else none

/-- Accessor `EventExec::cwd`: present on version 3 and later. -/
def EventExec.cwd (e : EventExec) : Option File :=
  if 3 ≤ e.version then some (File.new e.raw.cwd) else none

/-- Accessor `EventExec::last_fd`: present on version 4 and later. -/
def EventExec.last_fd (e : EventExec) : Option Int :=
  if 4 ≤ e.version then some e.raw.last_fd else none

/-- Accessor `EventExec::image_cputype`: present on version 6 and later. -/
def EventExec.image_cputype (e : EventExec) : Option Int :=
  if 6 ≤ e.version then some e.raw.image_cputype else none

/-- Accessor `EventExec::image_cpusubtype`: present on version 6 and later. -/
def EventExec.image_cpusubtype (e : EventExec) : Option Int :=
  if 6 ≤ e.version then some e.raw.image_cpusubtype else none

/-- Accessor `EventExec::arg_count`, delegating to `es_exec_arg_count`. -/
def EventExec.arg_count (e : EventExec) : Nat := es_exec_arg_count e.raw

/-- Accessor `EventExec::env_count`, delegating to `es_exec_env_count`. -/
def EventExec.env_count (e : EventExec) : Nat := es_exec_env_count e.raw

/-- Accessor `EventExec::fd_count`, delegating to `es_exec_fd_count`. -/
def EventExec.fd_count (e : EventExec) : Nat := es_exec_fd_count e.raw

/-- Iterator generated by `make_exec_iterator`: the element array reachable
through the native element function, the element count snapshotted at
construction, and the cursor.  `elems` stands for the sequence the native
`raw_element_func` indexes into (already through `raw_to_wrapped`, which is
an identity reinterpretation for strings and the `Fd` constructor for
descriptors). -/
structure ExecIter (α : Type) where
  elems : List α
  count : Nat
  current : Nat

/-- Iterator constructor (`Self::new`): count snapshotted from the native
count function, cursor at 0. -/
def ExecIter.new {α : Type} (l : List α) : ExecIter α := ⟨l, l.length, 0⟩

/-- Method `next` of the generated iterator: when `current < count`, fetch
the element at `current` from the native array, advance the cursor with
`saturating_add(1)` and yield it; otherwise yield nothing and leave the
state unchanged.  The third component records the indices passed to the
native element function during this call, for the out-of-bounds analysis;
an in-bounds fetch that the model cannot serve (`List.get?` giving `none`)
marks a state unreachable from `new`. -/
def ExecIter.next {α : Type} (it : ExecIter α) : Option α × ExecIter α × List Nat :=
  if it.current < it.count then
    (it.elems.get? it.current, ⟨it.elems, it.count, satAdd32 it.current 1⟩, [it.current])
  else
    (none, it, [])

/-- Method `nth` of the generated iterator:
`self.current = n.min(u32::MAX as usize) as u32; self.next()`. -/
def ExecIter.nth {α : Type} (it : ExecIter α) (n : Nat) : Option α × ExecIter α × List Nat :=
  ExecIter.next ⟨it.elems, it.count, min n U32_MAX⟩

/-- Method `last` of the generated iterator:
`self.current = self.count.saturating_sub(1); self.next()` (`Nat`
subtraction is saturating). -/
def ExecIter.last {α : Type} (it : ExecIter α) : Option α × ExecIter α × List Nat :=
  ExecIter.next ⟨it.elems, it.count, it.count - 1⟩

/-- Method `len` of `ExactSizeIterator`:
`self.count.saturating_sub(self.current)`. -/
def ExecIter.len {α : Type} (it : ExecIter α) : Nat := it.count - it.current

/-- Method `size_hint`: `(self.len(), Some(self.len()))`. -/
def ExecIter.size_hint {α : Type} (it : ExecIter α) : Nat × Option Nat :=
  (it.len, some it.len)

/-- Terminal method `count`: returns the remaining length and advances the
cursor to `count`. -/
def ExecIter.countRemaining {α : Type} (it : ExecIter α) : Nat × ExecIter α :=
  (it.len, ⟨it.elems, it.count, it.count⟩)

/-- State after `k` further calls to `next` (results discarded). -/
def ExecIter.stepN {α : Type} (it : ExecIter α) : Nat → ExecIter α
  | 0 => it
  | k + 1 => ExecIter.stepN (it.next).2.1 k

/-- Element produced by the `(i + 1)`-th call to `next` from this state:
skip `i` elements one at a time, then take one. -/
def ExecIter.ithYield {α : Type} (it : ExecIter α) (i : Nat) : Option α :=
  ((it.stepN i).next).1

/-- Fuel-bounded collection: repeatedly call `next`, gathering the yielded
elements, stopping at exhaustion or when the fuel runs out. -/
def ExecIter.drain {α : Type} : ExecIter α → Nat → List α
  | _, 0 => []
  | it, Nat.succ k =>
    match it.next with
    | (some x, it2, _) => x :: ExecIter.drain it2 k
    | (none, _, _) => []

/-- Rust `Iterator::collect` on the generated iterator: drive `next` to
exhaustion (the remaining length bounds the number of yields). -/
def ExecIter.collect {α : Type} (it : ExecIter α) : List α := it.drain it.len

/-- One observable operation on an iterator, for reasoning about arbitrary
call sequences. -/
inductive ExecOp where
  | next : ExecOp
  | nth : Nat → ExecOp
  | last : ExecOp

/-- Apply one operation to an iterator state. -/
def ExecIter.applyOp {α : Type} (it : ExecIter α) : ExecOp → Option α × ExecIter α × List Nat
  | ExecOp.next => it.next
  | ExecOp.nth n => it.nth n
  | ExecOp.last => it.last

/-- Run a sequence of operations, returning the final state and the
concatenated trace of indices passed to the native element function. -/
def ExecIter.runOps {α : Type} (it : ExecIter α) : List ExecOp → ExecIter α × List Nat
  | [] => (it, [])
  | op :: ops =>
    let r := it.applyOp op
    let rest := ExecIter.runOps r.2.1 ops
    (rest.1, r.2.2 ++ rest.2)

/-- Method `EventExec::args`: iterator over the arguments. -/
def EventExec.args (e : EventExec) : ExecIter String := ExecIter.new e.raw.args

/-- Method `EventExec::envs`: iterator over the environment. -/
def EventExec.envs (e : EventExec) : ExecIter String := ExecIter.new e.raw.envs

/-- Method `EventExec::fds`: iterator over the file descriptors; each raw
`es_fd_t` is wrapped by `make_fd` into `Fd`. -/
def EventExec.fds (e : EventExec) : ExecIter Fd := ExecIter.new (e.raw.fds.map Fd.mk)

/-- Accessor `EventExec::arg`: `self.args().nth(index as _)`. -/
def EventExec.arg (e : EventExec) (index : Nat) : Option String := ((e.args).nth index).1

/-- Accessor `EventExec::env`: `self.envs().nth(index as _)`. -/
def EventExec.env (e : EventExec) (index : Nat) : Option String := ((e.envs).nth index).1

/-- Accessor `EventExec::fd`: `self.fds().nth(index as _)`. -/
def EventExec.fd (e : EventExec) (index : Nat) : Option Fd := ((e.fds).nth index).1

/-- Method `EventExec::all_args`: `self.args().collect()`. -/
def EventExec.all_args (e : EventExec) : List String := (e.args).collect

/-- Modelled from the spec: the macro `impl_debug_eq_hash_with_functions`
is defined outside `src/`; per the spec (4.5) it derives equality "by
invoking their own public accessors (including fully materializing the
argument list) rather than comparing raw bytes".  The invocation in
`event_exec.rs` lists the `version` field and the functions `cwd`,
`all_args`, `script`, `target`, `last_fd`, `arg_count`, `env_count`,
`fd_count`, `image_cputype`, `image_cpusubtype`. -/
def EventExec.eqv (a b : EventExec) : Prop :=
  a.version = b.version ∧ a.cwd = b.cwd ∧ a.all_args = b.all_args ∧
  a.script = b.script ∧ a.target = b.target ∧ a.last_fd = b.last_fd ∧
  a.arg_count = b.arg_count ∧ a.env_count = b.env_count ∧ a.fd_count = b.fd_count ∧
  a.image_cputype = b.image_cputype ∧ a.image_cpusubtype = b.image_cpusubtype

instance (a b : EventExec) : Decidable (EventExec.eqv a b) := by
  unfold EventExec.eqv
  exact inferInstance

/-- Mixing step for hashing a string. -/
def hashString (s : String) : Nat := String.foldl (fun a c => a * 131 + c.toNat) 7 s

/-- Mixing step for hashing a list through a component hash. -/
def hashList {α : Type} (f : α → Nat) (l : List α) : Nat :=
  List.foldl (fun a x => a * 31 + f x) 3 l

/-- Hash of an optional value, distinguishing absence from every value. -/
def hashOpt {α : Type} (f : α → Nat) : Option α → Nat
  | none => 0
  | some x => f x + 1

/-- Hash of a signed integer. -/
def hashInt (i : Int) : Nat := 2 * i.natAbs + (if i < 0 then 1 else 0)

/-- Hash of a `File` wrapper. -/
def hashFile (f : File) : Nat := hashString f.raw.path

/-- Hash of a `Process` wrapper. -/
def hashProcess (p : Process) : Nat := hashList id [p.raw.token, p.version]

/-- Modelled from the spec: the `Hash` implementation generated by
`impl_debug_eq_hash_with_functions` (defined outside `src/`) feeds the
`version` field and the results of the listed accessor functions into the
hasher, in the order of the macro invocation. -/
def EventExec.hashv (e : EventExec) : Nat :=
  hashList id [e.version, hashOpt hashFile e.cwd, hashList hashString e.all_args,
    hashOpt hashFile e.script, hashProcess e.target, hashOpt hashInt e.last_fd,
    e.arg_count, e.env_count, e.fd_count, hashOpt hashInt e.image_cputype,
    hashOpt hashInt e.image_cpusubtype]

/-- A call to `next` never changes the element array or the count. -/
theorem next_state {α : Type} (it : ExecIter α) :
    ((it.next).2.1).elems = it.elems ∧ ((it.next).2.1).count = it.count := by
  unfold ExecIter.next
  split <;> exact ⟨rfl, rfl⟩

/-- Every index `next` hands to the native element function is `< count`. -/
theorem next_trace {α : Type} (it : ExecIter α) :
    ∀ i ∈ (it.next).2.2, i < it.count := by
  unfold ExecIter.next
  split
  · intro i hi
    simp only [List.mem_singleton] at hi
    subst hi
    assumption
  · intro i hi
    simp at hi

/-- If `next` yields nothing and the state is well formed (the snapshotted
count does not exceed the native array length), the guard failed and the
state is unchanged. -/
theorem next_none {α : Type} (it : ExecIter α) (hwf : it.count ≤ it.elems.length)
    (h : (it.next).1 = none) : it.count ≤ it.current ∧ (it.next).2.1 = it := by
  by_cases hc : it.current < it.count
  · exfalso
    have hlt : it.current < it.elems.length := lt_of_lt_of_le hc hwf
    have hsome := List.get?_eq_get hlt
    unfold ExecIter.next at h
    rw [if_pos hc] at h
    have h2 : it.elems.get? it.current = none := h
    rw [h2] at hsome
    exact Option.noConfusion hsome
  · constructor
    · omega
    · unfold ExecIter.next
      rw [if_neg hc]

/-- No single operation changes the element array or the count. -/
theorem applyOp_state {α : Type} (it : ExecIter α) (op : ExecOp) :
    ((it.applyOp op).2.1).elems = it.elems ∧ ((it.applyOp op).2.1).count = it.count := by
  cases op with
  | next => exact next_state it
  | nth n =>
    have h := next_state (⟨it.elems, it.count, min n U32_MAX⟩ : ExecIter α)
    exact h
  | last =>
    have h := next_state (⟨it.elems, it.count, it.count - 1⟩ : ExecIter α)
    exact h

/-- Every index a single operation hands to the native element function is
`< count`. -/
theorem applyOp_trace {α : Type} (it : ExecIter α) (op : ExecOp) :
    ∀ i ∈ (it.applyOp op).2.2, i < it.count := by
  cases op with
  | next => exact next_trace it
  | nth n => exact next_trace (⟨it.elems, it.count, min n U32_MAX⟩ : ExecIter α)
  | last => exact next_trace (⟨it.elems, it.count, it.count - 1⟩ : ExecIter α)

/-- No sequence of operations changes the element array or the count. -/
theorem runOps_state {α : Type} (it : ExecIter α) (ops : List ExecOp) :
    ((it.runOps ops).1).elems = it.elems ∧ ((it.runOps ops).1).count = it.count := by
  induction ops generalizing it with
  | nil => exact ⟨rfl, rfl⟩
  | cons op ops ih =>
    have h1 := applyOp_state it op
    have h2 := ih (it.applyOp op).2.1
    unfold ExecIter.runOps
    exact ⟨h2.1.trans h1.1, h2.2.trans h1.2⟩

/-- Every index a sequence of operations hands to the native element
function is `< count`. -/
theorem runOps_trace {α : Type} (it : ExecIter α) (ops : List ExecOp) :
    ∀ i ∈ (it.runOps ops).2, i < it.count := by
  induction ops generalizing it with
  | nil => intro i hi; simp [ExecIter.runOps] at hi
  | cons op ops ih =>
    intro i hi
    unfold ExecIter.runOps at hi
    simp only [List.mem_append] at hi
    rcases hi with hi | hi
    · exact applyOp_trace it op i hi
    · have h := ih (it.applyOp op).2.1 i hi
      rw [(applyOp_state it op).2] at h
      exact h

/-- Characterization of `stepN`: from a state whose cursor is within the
count, `k` calls to `next` move the cursor to `min (current + k) count`. -/
theorem stepN_eq {α : Type} (k : Nat) (it : ExecIter α) (h1 : it.count ≤ U32_MAX)
    (h2 : it.current ≤ it.count) :
    it.stepN k = ⟨it.elems, it.count, min (it.current + k) it.count⟩ := by
  induction k generalizing it with
  | zero =>
    show it = ⟨it.elems, it.count, min (it.current + 0) it.count⟩
    have hmin : min (it.current + 0) it.count = it.current := by omega
    rw [hmin]
  | succ k ih =>
    show ExecIter.stepN (it.next).2.1 k = _
    by_cases hc : it.current < it.count
    · have hstep : (it.next).2.1 = ⟨it.elems, it.count, satAdd32 it.current 1⟩ := by
        unfold ExecIter.next
        rw [if_pos hc]
      have hsat : satAdd32 it.current 1 = it.current + 1 := by
        unfold satAdd32
        omega
      have hrec :
          ExecIter.stepN (⟨it.elems, it.count, it.current + 1⟩ : ExecIter α) k =
            ⟨it.elems, it.count, min (it.current + 1 + k) it.count⟩ :=
        ih (⟨it.elems, it.count, it.current + 1⟩ : ExecIter α) h1
          (show it.current + 1 ≤ it.count by omega)

      have hmin : min (it.current + 1 + k) it.count = min (it.current + (k + 1)) it.count := by
        omega
      rw [hstep, hsat, hrec, hmin]
    · have hstep : (it.next).2.1 = it := by
        unfold ExecIter.next
        rw [if_neg hc]
      have hrec : ExecIter.stepN it k = ⟨it.elems, it.count, min (it.current + k) it.count⟩ :=
        ih it h1 h2
      have hmin : min (it.current + k) it.count = min (it.current + (k + 1)) it.count := by
        omega
      rw [hstep, hrec, hmin]

/-- On a fresh iterator, skipping `i` elements with `next` and taking one
yields exactly the `i`-th element of the underlying array. -/
theorem ithYield_new {α : Type} (l : List α) (hl : l.length ≤ U32_MAX) (i : Nat) :
    (ExecIter.new l).ithYield i = l.get? i := by
  unfold ExecIter.ithYield ExecIter.new
  rw [stepN_eq i (⟨l, l.length, 0⟩ : ExecIter α) hl (Nat.zero_le _)]
  unfold ExecIter.next
  split
  · next h =>
    simp only at h ⊢
    have : min (0 + i) l.length = i := by omega
    rw [this]
  · next h =>
    simp only at h ⊢
    have hle : l.length ≤ i := by omega
    exact (List.get?_eq_none.mpr hle).symm

/-- Value yielded by `nth` as a function of the target index and count. -/
theorem nth_val {α : Type} (it : ExecIter α) (n : Nat) (hn : n ≤ U32_MAX) :
    (it.nth n).1 = if n < it.count then it.elems.get? n else none := by
  unfold ExecIter.nth ExecIter.next
  rw [Nat.min_eq_left hn]
  split <;> rfl

/-- On a fresh iterator, `nth n` yields exactly the `n`-th element of the
underlying array (absent when out of range). -/
theorem nth_new {α : Type} (l : List α) (n : Nat) (hn : n ≤ U32_MAX) :
    ((ExecIter.new l).nth n).1 = l.get? n := by
  rw [nth_val (ExecIter.new l) n hn]
  unfold ExecIter.new
  split
  · rfl
  · next h =>
    simp only at h
    exact (List.get?_eq_none.mpr (by omega)).symm

/-- Draining a well-formed iterator with fuel at least its remaining
length yields exactly `len` elements. -/
theorem drain_length {α : Type} : ∀ (k : Nat) (it : ExecIter α),
    it.count ≤ it.elems.length → it.count ≤ U32_MAX → it.len = k →
    ∀ m, (it.drain (k + m)).length = k := by
  intro k
  induction k with
  | zero =>
    intro it hwf hc hlen m
    have hcur : ¬ it.current < it.count := by
      unfold ExecIter.len at hlen
      omega
    have hnext : it.next = (none, it, []) := by
      unfold ExecIter.next
      rw [if_neg hcur]
    cases m with
    | zero => rfl
    | succ m => simp [ExecIter.drain, hnext]
  | succ k ih =>
    intro it hwf hc hlen m
    have hcur : it.current < it.count := by
      unfold ExecIter.len at hlen
      omega
    have hlt : it.current < it.elems.length := lt_of_lt_of_le hcur hwf
    have hsome := List.get?_eq_get hlt
    have hnext : it.next =
        (some (it.elems.get ⟨it.current, hlt⟩),
         ⟨it.elems, it.count, satAdd32 it.current 1⟩, [it.current]) := by
      unfold ExecIter.next
      rw [if_pos hcur, hsome]
    have harr : k + 1 + m = (k + m) + 1 := by omega
    rw [harr]
    simp only [ExecIter.drain, hnext]
    have hsat : satAdd32 it.current 1 = it.current + 1 := by
      unfold satAdd32
      omega
    have hlen2 : (⟨it.elems, it.count, satAdd32 it.current 1⟩ : ExecIter α).len = k := by
      unfold ExecIter.len at hlen ⊢
      rw [hsat]
      simp only
      omega
    have := ih (⟨it.elems, it.count, satAdd32 it.current 1⟩ : ExecIter α) hwf hc hlen2 m
    simp only [List.length_cons, this]

/-- C2: over any sequence of `next`, `nth` and `last` calls, every index
handed to the native element function is strictly below the count
snapshotted at construction, and an out-of-range index supplied to `nth`
propagates as an absent result, never clamped into range. -/
theorem claim_no_oob_access (α : Type) (it : ExecIter α) (hc : it.count ≤ U32_MAX) :
    (∀ (ops : List ExecOp) (i : Nat), i ∈ (it.runOps ops).2 → i < it.count) ∧
    (∀ n : Nat, it.count ≤ n → (it.nth n).1 = none) := by
  constructor
  · intro ops i hi
    exact runOps_trace it ops i hi
  · intro n hn
    unfold ExecIter.nth ExecIter.next
    split
    · next h =>
      exfalso
      have h2 : min n U32_MAX < it.count := h
      omega
    · rfl

theorem claim_no_oob_access_witness :
    ((ExecIter.new ([3, 4] : List Nat)).nth 9).1 = none :=
  (claim_no_oob_access Nat (ExecIter.new [3, 4]) (by decide)).2 9 (by decide)

/-- C4 (amended): on a fresh iterator, `nth n` yields the same element as
calling `next` exactly `n + 1` times, and yields nothing when the sequence
has at most `n` elements.  (On a partially consumed iterator `nth`
positions the cursor absolutely from the start of the sequence, so the
equivalence with repeated `next` from the current state fails; see the
counterexample.) -/
theorem claim_nth_fresh_equiv (α : Type) (l : List α) (n : Nat) (hn : n ≤ U32_MAX)
    (hl : l.length ≤ U32_MAX) :
    ((ExecIter.new l).nth n).1 = (ExecIter.new l).ithYield n ∧
    (l.length ≤ n → ((ExecIter.new l).nth n).1 = none) := by
  rw [nth_new l n hn, ithYield_new l hl n]
  exact ⟨rfl, fun h => List.get?_eq_none.mpr h⟩

theorem claim_nth_fresh_equiv_witness :
    ((ExecIter.new ([10, 20] : List Nat)).nth 1).1 =
      (ExecIter.new ([10, 20] : List Nat)).ithYield 1 :=
  (claim_nth_fresh_equiv Nat [10, 20] 1 (by decide) (by decide)).1

/-- C4 counterexample: after consuming one element of a two-element
sequence, `nth 0` re-yields element 0, while one further `next` call from
that state yields element 1 — so `nth n` is not equivalent to `n + 1`
repeated `next` calls from an arbitrary state. -/
theorem claim_nth_relative_counterexample :
    ¬ (((((ExecIter.new ([10, 20] : List Nat)).next).2.1).nth 0).1 =
        (((ExecIter.new ([10, 20] : List Nat)).next).2.1).ithYield 0) := by
  decide

/-- C5: once `next` has yielded nothing on a well-formed iterator (count
within the native array), every later `next` call also yields nothing. -/
theorem claim_fused_exhaustion (α : Type) (it : ExecIter α)
    (hwf : it.count ≤ it.elems.length) (h : (it.next).1 = none) :
    ∀ m : Nat, ((it.stepN m).next).1 = none := by
  have hfix := next_none it hwf h
  have hstep : ∀ m : Nat, it.stepN m = it := by
    intro m
    induction m with
    | zero => rfl
    | succ m ih =>
      show ExecIter.stepN (it.next).2.1 m = it
      rw [hfix.2]
      exact ih
  intro m
  rw [hstep m]
  exact h

theorem claim_fused_exhaustion_witness :
    (((ExecIter.new ([] : List Nat)).stepN 3).next).1 = none :=
  claim_fused_exhaustion Nat (ExecIter.new []) (by decide) (by decide) 3

/-- C7: `last` on an iterator with count 0 yields nothing; on a non-empty
well-formed iterator it yields exactly the element at `count - 1`, and the
resulting state is exhausted. -/
theorem claim_last_spec (α : Type) (it : ExecIter α) (hwf : it.count ≤ it.elems.length)
    (hc : it.count ≤ U32_MAX) :
    (it.count = 0 → (it.last).1 = none) ∧
    (0 < it.count → (it.last).1 = it.elems.get? (it.count - 1) ∧
      ((it.last).1).isSome = true ∧ (((it.last).2.1).next).1 = none) := by
  constructor
  · intro h0
    unfold ExecIter.last ExecIter.next
    split
    · next h =>
      exfalso
      have h2 : it.count - 1 < it.count := h
      omega
    · rfl
  · intro hpos
    have hlt : it.count - 1 < it.count := by omega
    have hval : (it.last).1 = it.elems.get? (it.count - 1) := by
      unfold ExecIter.last ExecIter.next
      split
      · rfl
      · next h => exact absurd hlt h
    have hstate : (it.last).2.1 = ⟨it.elems, it.count, satAdd32 (it.count - 1) 1⟩ := by
      unfold ExecIter.last ExecIter.next
      split
      · rfl
      · next h => exact absurd hlt h
    have hsat : satAdd32 (it.count - 1) 1 = it.count := by
      unfold satAdd32
      omega
    have hafter : (((it.last).2.1).next).1 = none := by
      rw [hstate, hsat]
      unfold ExecIter.next
      split
      · next h =>
        exfalso
        have h2 : it.count < it.count := h
        omega
      · rfl
    have hsome : ((it.last).1).isSome = true := by
      rw [hval, List.get?_eq_get (lt_of_lt_of_le hlt hwf)]
      rfl
    exact ⟨hval, hsome, hafter⟩

theorem claim_last_spec_witness :
    ((ExecIter.new ([5] : List Nat)).last).1 =
      List.get? [5] ((ExecIter.new ([5] : List Nat)).count - 1) :=
  ((claim_last_spec Nat (ExecIter.new [5]) (by decide) (by decide)).2 (by decide)).1

/-- C8: at every state, the remaining length is `count - current`
(saturating at zero), `size_hint` reports it as both bounds, and it is
exact: draining the iterator yields exactly that many elements, however
much fuel beyond it is provided. -/
theorem claim_exact_size (α : Type) (it : ExecIter α) (hwf : it.count ≤ it.elems.length)
    (hc : it.count ≤ U32_MAX) :
    it.size_hint = (it.len, some it.len) ∧ it.len = it.count - it.current ∧
    ∀ m : Nat, (it.drain (it.len + m)).length = it.len :=
  ⟨rfl, rfl, fun m => drain_length it.len it hwf hc rfl m⟩

theorem claim_exact_size_witness :
    ((ExecIter.new ([1, 2] : List Nat)).drain
        ((ExecIter.new ([1, 2] : List Nat)).len + 1)).length =
      (ExecIter.new ([1, 2] : List Nat)).len :=
  (claim_exact_size Nat (ExecIter.new [1, 2]) (by decide) (by decide)).2.2 1

/-- C9: `pipe_id` is present exactly when `fdtype` equals the pipe type
code, in which case it carries the union's `pipe_id`; for any other type
code it is absent. -/
theorem claim_pipe_id_gating (x : Fd) :
    ((x.pipe_id).isSome = true ↔ x.fdtype = PROX_FDTYPE_PIPE) ∧
    (x.fdtype ≠ PROX_FDTYPE_PIPE → x.pipe_id = none) ∧
    (x.fdtype = PROX_FDTYPE_PIPE → x.pipe_id = some x.raw.anon_pipe.pipe_id) := by
  unfold Fd.pipe_id Fd.fdtype es_fd_t.pipe
  by_cases h : x.raw.fdtype = PROX_FDTYPE_PIPE
  · rw [if_pos h]
    exact ⟨⟨fun _ => h, fun _ => rfl⟩, fun hn => absurd h hn, fun _ => rfl⟩
  · rw [if_neg h]
    refine ⟨⟨fun hh => ?_, fun hh => absurd hh h⟩, fun _ => rfl, fun hh => absurd hh h⟩
    simp at hh

theorem claim_pipe_id_gating_witness :
    (Fd.mk ⟨3, 6, ⟨99⟩⟩).pipe_id = some (Fd.mk ⟨3, 6, ⟨99⟩⟩).raw.anon_pipe.pipe_id ∧
    (Fd.mk ⟨4, 1, ⟨0⟩⟩).pipe_id = none :=
  ⟨(claim_pipe_id_gating (Fd.mk ⟨3, 6, ⟨99⟩⟩)).2.2 (by decide),
   (claim_pipe_id_gating (Fd.mk ⟨4, 1, ⟨0⟩⟩)).2.1 (by decide)⟩

/-- C10: `nth k` positions absolutely: from any state reachable by any
sequence of operations (including an exhausted one), `nth k` with
`k < count` yields element `k` of the underlying array; and the value
`nth` yields does not depend on the previous cursor at all. -/
theorem claim_nth_absolute (α : Type) (l : List α) (ops : List ExecOp) (k : Nat)
    (hk : k < l.length) (hk2 : k ≤ U32_MAX) :
    ((((((ExecIter.new l).runOps ops).1).nth k).1 = l.get? k) ∧
      (((((ExecIter.new l).runOps ops).1).nth k).1).isSome = true) ∧
    ∀ (e : List α) (cnt c1 c2 n : Nat),
      ((ExecIter.mk e cnt c1).nth n).1 = ((ExecIter.mk e cnt c2).nth n).1 := by
  have hstate := runOps_state (ExecIter.new l) ops
  have hcount : ((((ExecIter.new l)).runOps ops).1).count = l.length := hstate.2
  have helems : ((((ExecIter.new l)).runOps ops).1).elems = l := hstate.1
  have hmain : (((((ExecIter.new l)).runOps ops).1).nth k).1 = l.get? k := by
    rw [nth_val _ k hk2, hcount, helems, if_pos hk]
  refine ⟨⟨hmain, ?_⟩, ?_⟩
  · rw [hmain, List.get?_eq_get hk]
    rfl
  · intro e cnt c1 c2 n
    rfl

theorem claim_nth_absolute_witness :
    (((((ExecIter.new ([7, 8] : List Nat)).runOps
          [ExecOp.next, ExecOp.next, ExecOp.next]).1).nth 0).1 = List.get? [7, 8] 0) :=
  ((claim_nth_absolute Nat [7, 8] [ExecOp.next, ExecOp.next, ExecOp.next] 0
      (by decide) (by decide)).1).1

/-- C1 (amended): version gating of the optional scalar accessors.  At
version 2, `script` is present exactly when the record's script pointer is
non-null, while `cwd`, `last_fd`, `dyld_exec_path` and `image_cputype` are
absent; at version 7 all of them are present (again, `script` provided the
pointer is non-null); below its threshold each accessor returns an explicit
absent result. -/
theorem claim_version_gating (r : es_event_exec_t) :
    (((EventExec.mk r 2).script).isSome = (r.script).isSome ∧
      (EventExec.mk r 2).cwd = none ∧ (EventExec.mk r 2).last_fd = none ∧
      (EventExec.mk r 2).dyld_exec_path = none ∧
      (EventExec.mk r 2).image_cputype = none) ∧
    (((EventExec.mk r 7).script).isSome = (r.script).isSome ∧
      ((EventExec.mk r 7).cwd).isSome = true ∧
      ((EventExec.mk r 7).last_fd).isSome = true ∧
      ((EventExec.mk r 7).dyld_exec_path).isSome = true ∧
      ((EventExec.mk r 7).image_cputype).isSome = true) ∧
    (∀ v : Nat, (v < 2 → (EventExec.mk r v).script = none) ∧
      (v < 3 → (EventExec.mk r v).cwd = none) ∧
      (v < 4 → (EventExec.mk r v).last_fd = none) ∧
      (v < 7 → (EventExec.mk r v).dyld_exec_path = none) ∧
      (v < 6 → (EventExec.mk r v).image_cputype = none)) := by
  refine ⟨⟨?_, ?_, ?_, ?_, ?_⟩, ⟨?_, ?_, ?_, ?_, ?_⟩, ?_⟩
  · unfold EventExec.script
    rw [if_pos (by norm_num)]
    cases r.script <;> rfl
  · unfold EventExec.cwd
    rw [if_neg (by norm_num)]
  · unfold EventExec.last_fd
    rw [if_neg (by norm_num)]
  · unfold EventExec.dyld_exec_path
    rw [if_neg (by norm_num)]
  · unfold EventExec.image_cputype
    rw [if_neg (by norm_num)]
  · unfold EventExec.script
    rw [if_pos (by norm_num)]
    cases r.script <;> rfl
  · unfold EventExec.cwd
    rw [if_pos (by norm_num)]
    rfl
  · unfold EventExec.last_fd
    rw [if_pos (by norm_num)]
    rfl
  · unfold EventExec.dyld_exec_path
    rw [if_pos (by norm_num)]
    rfl
  · unfold EventExec.image_cputype
    rw [if_pos (by norm_num)]
    rfl
  · intro v
    refine ⟨fun hv => ?_, fun hv => ?_, fun hv => ?_, fun hv => ?_, fun hv => ?_⟩
    · unfold EventExec.script
      rw [if_neg (by show ¬ 2 ≤ v; omega)]
    · unfold EventExec.cwd
      rw [if_neg (by show ¬ 3 ≤ v; omega)]
    · unfold EventExec.last_fd
      rw [if_neg (by show ¬ 4 ≤ v; omega)]
    · unfold EventExec.dyld_exec_path
      rw [if_neg (by show ¬ 7 ≤ v; omega)]
    · unfold EventExec.image_cputype
      rw [if_neg (by show ¬ 6 ≤ v; omega)]

theorem claim_version_gating_witness :
    ((EventExec.mk ⟨⟨0⟩, some ⟨"/bin/sh"⟩, ⟨"/"⟩, 3, "p", 1, 2, ["a"], ["E"], []⟩
        7).dyld_exec_path).isSome = true ∧
    (EventExec.mk ⟨⟨0⟩, some ⟨"/bin/sh"⟩, ⟨"/"⟩, 3, "p", 1, 2, ["a"], ["E"], []⟩
        0).cwd = none :=
  ⟨(claim_version_gating ⟨⟨0⟩, some ⟨"/bin/sh"⟩, ⟨"/"⟩, 3, "p", 1, 2, ["a"], ["E"], []⟩).2.1.2.2.2.1,
   ((claim_version_gating ⟨⟨0⟩, some ⟨"/bin/sh"⟩, ⟨"/"⟩, 3, "p", 1, 2, ["a"], ["E"], []⟩).2.2
       0).2.1 (by decide)⟩

/-- C1 counterexample: a version-2 record whose native script pointer is
null has `script() = None`, refuting "when the message version is 2 the
accessor `script()` returns a present value" for every record. -/
theorem claim_version_gating_counterexample :
    (EventExec.mk ⟨⟨0⟩, none, ⟨"/"⟩, 3, "p", 1, 2, ["a"], ["E"], []⟩ 2).script = none := by
  decide

/-- Agreement of `nth` on a fresh iterator with both direct indexing into
the underlying array and skip-and-take iteration. -/
theorem nth_new_agree {α : Type} (l : List α) (i : Nat) (hi : i ≤ U32_MAX)
    (hl : l.length ≤ U32_MAX) :
    ((ExecIter.new l).nth i).1 = (ExecIter.new l).ithYield i ∧
    (i < l.length → (((ExecIter.new l).nth i).1).isSome = true) ∧
    (l.length ≤ i → ((ExecIter.new l).nth i).1 = none) := by
  rw [nth_new l i hi, ithYield_new l hl i]
  refine ⟨rfl, ?_, ?_⟩
  · intro h
    rw [List.get?_eq_get h]
    rfl
  · intro h
    exact List.get?_eq_none.mpr h

/-- C3: for every index below the respective count, the single-element
lookups `arg`, `env` and `fd` return exactly the element the corresponding
fresh iterator yields at that position (a present value); at or above the
count they return an absent result. -/
theorem claim_lookup_agrees (e : EventExec) (i : Nat) (hi : i ≤ U32_MAX)
    (ha : e.raw.args.length ≤ U32_MAX) (he : e.raw.envs.length ≤ U32_MAX)
    (hf : e.raw.fds.length ≤ U32_MAX) :
    ((i < e.arg_count → e.arg i = (e.args).ithYield i ∧ (e.arg i).isSome = true) ∧
      (e.arg_count ≤ i → e.arg i = none)) ∧
    ((i < e.env_count → e.env i = (e.envs).ithYield i ∧ (e.env i).isSome = true) ∧
      (e.env_count ≤ i → e.env i = none)) ∧
    ((i < e.fd_count → e.fd i = (e.fds).ithYield i ∧ (e.fd i).isSome = true) ∧
      (e.fd_count ≤ i → e.fd i = none)) := by
  obtain ⟨a1, a2, a3⟩ := nth_new_agree e.raw.args i hi ha
  obtain ⟨e1, e2, e3⟩ := nth_new_agree e.raw.envs i hi he
  obtain ⟨f1, f2, f3⟩ :=
    nth_new_agree (e.raw.fds.map Fd.mk) i hi (by rw [List.length_map]; exact hf)
  refine ⟨⟨fun h => ⟨a1, a2 h⟩, fun h => a3 h⟩,
    ⟨fun h => ⟨e1, e2 h⟩, fun h => e3 h⟩,
    ⟨fun h => ⟨f1, f2 ?_⟩, fun h => f3 ?_⟩⟩
  · rw [List.length_map]
    exact h
  · rw [List.length_map]
    exact h

theorem claim_lookup_agrees_witness :
    (EventExec.mk ⟨⟨0⟩, none, ⟨"/"⟩, 0, "", 0, 0, ["x", "y"], ["E"], []⟩ 1).arg 1 =
      ((EventExec.mk ⟨⟨0⟩, none, ⟨"/"⟩, 0, "", 0, 0, ["x", "y"], ["E"], []⟩ 1).args).ithYield
        1 :=
  ((((claim_lookup_agrees (EventExec.mk ⟨⟨0⟩, none, ⟨"/"⟩, 0, "", 0, 0, ["x", "y"], ["E"], []⟩ 1)
        1 (by decide) (by decide) (by decide) (by decide)).1).1) (by decide)).1

/-- C6 (amended): equality is computed through the public accessors —
`version`, `cwd`, the materialized argument list, `script`, `target`,
`last_fd`, the three counts and the image CPU type and subtype — so records
agreeing on all those observables compare equal (in particular the
environment and descriptor arrays participate only through their counts),
and equal records hash identically. -/
theorem claim_eq_hash (a b : EventExec) :
    (EventExec.eqv a b → EventExec.hashv a = EventExec.hashv b) ∧
    (a.version = b.version → a.raw.target = b.raw.target → a.raw.script = b.raw.script →
      a.raw.cwd = b.raw.cwd → a.raw.last_fd = b.raw.last_fd →
      a.raw.image_cputype = b.raw.image_cputype →
      a.raw.image_cpusubtype = b.raw.image_cpusubtype → a.raw.args = b.raw.args →
      a.raw.envs.length = b.raw.envs.length → a.raw.fds.length = b.raw.fds.length →
      EventExec.eqv a b) := by
  constructor
  · intro h
    obtain ⟨h1, h2, h3, h4, h5, h6, h7, h8, h9, h10, h11⟩ := h
    unfold EventExec.hashv
    rw [h1, h2, h3, h4, h5, h6, h7, h8, h9, h10, h11]
  · intro hv ht hs hc hl hct hcst hargs henv hfd
    unfold EventExec.eqv
    refine ⟨hv, ?_, ?_, ?_, ?_, ?_, ?_, ?_, ?_, ?_, ?_⟩
    · unfold EventExec.cwd
      rw [hv, hc]
    · unfold EventExec.all_args EventExec.args
      rw [hargs]
    · unfold EventExec.script
      rw [hv, hs]
    · unfold EventExec.target Process.new
      rw [hv, ht]
    · unfold EventExec.last_fd
      rw [hv, hl]
    · unfold EventExec.arg_count es_exec_arg_count
      rw [hargs]
    · unfold EventExec.env_count es_exec_env_count
      rw [henv]
    · unfold EventExec.fd_count es_exec_fd_count
      rw [hfd]
    · unfold EventExec.image_cputype
      rw [hv, hct]
    · unfold EventExec.image_cpusubtype
      rw [hv, hcst]

theorem claim_eq_hash_witness :
    EventExec.eqv
      (EventExec.mk ⟨⟨1⟩, some ⟨"/s"⟩, ⟨"/"⟩, 5, "d", 7, 8, ["x"], ["E"], []⟩ 4)
      (EventExec.mk ⟨⟨1⟩, some ⟨"/s"⟩, ⟨"/"⟩, 5, "d", 7, 8, ["x"], ["G"], []⟩ 4) ∧
    EventExec.hashv (EventExec.mk ⟨⟨1⟩, some ⟨"/s"⟩, ⟨"/"⟩, 5, "d", 7, 8, ["x"], ["E"], []⟩ 4) =
      EventExec.hashv
        (EventExec.mk ⟨⟨1⟩, some ⟨"/s"⟩, ⟨"/"⟩, 5, "d", 7, 8, ["x"], ["G"], []⟩ 4) := by
  have h := claim_eq_hash
    (EventExec.mk ⟨⟨1⟩, some ⟨"/s"⟩, ⟨"/"⟩, 5, "d", 7, 8, ["x"], ["E"], []⟩ 4)
    (EventExec.mk ⟨⟨1⟩, some ⟨"/s"⟩, ⟨"/"⟩, 5, "d", 7, 8, ["x"], ["G"], []⟩ 4)
  have heqv := h.2 rfl rfl rfl rfl rfl rfl rfl rfl rfl rfl
  exact ⟨heqv, h.1 heqv⟩

/-- C6 counterexample: two records that differ in the contents of their
environment arrays (same count) compare equal, refuting "equal iff every
observable field agrees ... same environment list element by element". -/
theorem claim_eq_hash_counterexample :
    EventExec.eqv
      (EventExec.mk ⟨⟨0⟩, none, ⟨"/"⟩, 0, "", 0, 0, ["a"], ["E=1"], []⟩ 1)
      (EventExec.mk ⟨⟨0⟩, none, ⟨"/"⟩, 0, "", 0, 0, ["a"], ["F=2"], []⟩ 1) ∧
    (EventExec.mk ⟨⟨0⟩, none, ⟨"/"⟩, 0, "", 0, 0, ["a"], ["E=1"], []⟩ 1).raw.envs ≠
      (EventExec.mk ⟨⟨0⟩, none, ⟨"/"⟩, 0, "", 0, 0, ["a"], ["F=2"], []⟩ 1).raw.envs := by
  constructor
  · decide
  · decide

end EndpointSec
